import Mathlib

/-!
Verification development for the CoG animal-similarity retrieval system.

The development shallowly embeds the three core source files:
- prepare_triplet_data.py : the Projector (seeded random dimension projection),
- train_triplet.py        : the TripletDataset sampler and the train loop,
- triplet_similarity.py   : the two-stage retriever (coarse, rerank, dedup).

Machine floats are modeled as real numbers; the external seeded random
generator is modeled as a fixed stream of draws indexed by position, which is
exactly the determinism contract the code relies on.
-/

namespace CoG

/-! ## Real-vector helpers (numpy and torch linear algebra over lists) -/

/-- Sum of squares of the entries of a vector. -/
noncomputable def sumSq (v : List ℝ) : ℝ :=
  (v.map (fun x => x * x)).sum

/-- Euclidean norm, np.linalg.norm for a 1-d array. -/
noncomputable def l2norm (v : List ℝ) : ℝ :=
  Real.sqrt (sumSq v)

/-- Dot product of two vectors of equal length. -/
noncomputable def dotList (u v : List ℝ) : ℝ :=
  (List.zipWith (fun a b => a * b) u v).sum

/-- Matrix-vector product mat @ vec: one dot product per matrix row. -/
noncomputable def matVec (m : List (List ℝ)) (v : List ℝ) : List ℝ :=
  m.map (fun row => dotList row v)

theorem sumSq_nonneg (v : List ℝ) : 0 ≤ sumSq v := by
  induction v with
  | nil => simp [sumSq]
  | cons x xs ih =>
    have hx : 0 ≤ x * x := mul_self_nonneg x
    simp only [sumSq, List.map_cons, List.sum_cons] at ih ⊢
    linarith

theorem sumSq_eq_zero_all (v : List ℝ) (h : sumSq v = 0) : ∀ x ∈ v, x = 0 := by
  induction v with
  | nil => intro x hx; simp at hx
  | cons y ys ih =>
    have hy : 0 ≤ y * y := mul_self_nonneg y
    have hys : 0 ≤ sumSq ys := sumSq_nonneg ys
    simp only [sumSq, List.map_cons, List.sum_cons] at h
    have hyy : y * y = 0 := by
      have : sumSq ys = (ys.map (fun x => x * x)).sum := rfl
      rw [← this] at h
      linarith
    have hsum : sumSq ys = 0 := by
      have : sumSq ys = (ys.map (fun x => x * x)).sum := rfl
      rw [← this] at h
      linarith
    intro x hx
    rcases List.mem_cons.mp hx with hxy | hxs
    · subst hxy; exact mul_self_eq_zero.mp hyy
    · exact ih hsum x hxs

theorem sumSq_map_div (v : List ℝ) (c : ℝ) :
    sumSq (v.map (fun x => x / c)) = sumSq v / (c * c) := by
  induction v with
  | nil => simp [sumSq]
  | cons x xs ih =>
    simp only [sumSq, List.map_cons, List.sum_cons] at ih ⊢
    rw [ih, div_mul_div_comm, div_add_div_same]

/-! ## Projector (prepare_triplet_data.py)

The class holds a cache keyed by (base_dim, target_dim) and a seeded
generator np.random.default_rng(42). The generator is an external library
primitive; it is modeled as a fixed stream of draws RngStream together with
an explicit draw position threaded through the projector state: a fixed seed
determines a fixed stream, and each standard_normal call consumes the next
block of draws.
-/

/-- The stream of draws of the seeded generator: position of the draw to value. -/
def RngStream : Type := Nat → ℝ

/-- Raw block of draws for rng.standard_normal((target_dim, base_dim)),
row-major, consumed starting at draw position pos. -/
noncomputable def genRawMatrix (g : RngStream) (pos targetDim baseDim : Nat) : List (List ℝ) :=
  (List.range targetDim).map fun i =>
    (List.range baseDim).map fun j => g (pos + i * baseDim + j)

/-- Row normalization of the generated matrix:
mat /= np.linalg.norm(mat, axis=1, keepdims=True) + 1e-8. -/
noncomputable def normalizeRow (row : List ℝ) : List ℝ :=
  row.map fun x => x / (l2norm row + 1 / 10 ^ 8)

/-- The matrix generated and cached for key (base_dim, target_dim) when the
draw position is pos: raw standard-normal block with rows normalized. -/
noncomputable def genMatrix (g : RngStream) (pos targetDim baseDim : Nat) : List (List ℝ) :=
  (genRawMatrix g pos targetDim baseDim).map normalizeRow

/-- Projector state: the (base_dim, target_dim) keyed cache, plus the number
of draws the seeded generator has already produced. -/
structure ProjState where
  cache : List ((Nat × Nat) × List (List ℝ))
  pos : Nat

/-- A fresh Projector(): empty cache, generator at its initial position. -/
def ProjState.init : ProjState := ⟨[], 0⟩

/-- Output normalization with the zero-norm guard of Projector.project:
norm = np.linalg.norm(out); if norm > 0: out = out / norm. -/
noncomputable def normalizeGuard (out : List ℝ) : List ℝ :=
  if 0 < l2norm out then out.map (fun x => x / l2norm out) else out

/-- The matrix Projector.project uses for a (base_dim, target_dim) pair: the
cached one when present, otherwise one freshly generated at the current
draw position. -/
noncomputable def projectMatrix (g : RngStream) (st : ProjState) (baseDim targetDim : Nat) :
    List (List ℝ) :=
  match st.cache.lookup (baseDim, targetDim) with
  | some mat => mat
  | none => genMatrix g st.pos targetDim baseDim

/-- Projector.project(vec, target_dim): identity when the length already
matches, otherwise fetch-or-build the matrix, multiply, and normalize with
the zero-norm guard. A cache miss appends the new matrix and advances the
generator by the target_dim * base_dim draws it consumed. -/
noncomputable def Projector.project (g : RngStream) (st : ProjState) (vec : List ℝ)
    (targetDim : Nat) : ProjState × List ℝ :=
  if vec.length = targetDim then (st, vec)
  else
    let baseDim := vec.length
    let mat := projectMatrix g st baseDim targetDim
    let stNew :=
      if (st.cache.lookup (baseDim, targetDim)).isSome then st
      else { cache := st.cache ++ [((baseDim, targetDim), mat)],
             pos := st.pos + targetDim * baseDim }
    (stNew, normalizeGuard (matVec mat vec))

theorem normalizeGuard_of_sumSq_zero (out : List ℝ) (h : sumSq out = 0) :
    normalizeGuard out = out ∧ ∀ x ∈ out, x = 0 := by
  have hnorm : l2norm out = 0 := by
    simp [l2norm, h, Real.sqrt_zero]
  constructor
  · simp [normalizeGuard, hnorm]
  · exact sumSq_eq_zero_all out h

theorem normalizeGuard_unit (out : List ℝ) (h : sumSq out ≠ 0) :
    sumSq (normalizeGuard out) = 1 := by
  have hpos : 0 < sumSq out := lt_of_le_of_ne (sumSq_nonneg out) (Ne.symm h)
  have hnormpos : 0 < l2norm out := by
    simpa [l2norm] using Real.sqrt_pos.mpr hpos
  have hguard : normalizeGuard out = out.map (fun x => x / l2norm out) := by
    simp [normalizeGuard, hnormpos]
  rw [hguard, sumSq_map_div]
  have hmul : l2norm out * l2norm out = sumSq out := by
    simpa [l2norm] using Real.mul_self_sqrt (sumSq_nonneg out)
  rw [hmul, div_self h]

/-- Constant-zero draw stream, used to instantiate projector theorems on
concrete inputs. -/
noncomputable def zeroStream : RngStream := fun _ => 0

/-- Draw stream whose first draw is 1 and whose later draws are 0, used to
exhibit history dependence of the generated matrices. -/
noncomputable def spikeStream : RngStream := fun n => if n = 0 then 1 else 0

/-- C9: when the input length differs from the target dimension, the
projection output is the normalized matrix-vector product; a zero-norm
product is returned unchanged (hence the all-zero vector, with no division
performed), and a nonzero-norm product is scaled to unit norm (sum of
squares exactly 1). -/
theorem C9_project_normalization (g : RngStream) (st : ProjState) (vec : List ℝ)
    (targetDim : Nat) (hdim : vec.length ≠ targetDim) :
    (Projector.project g st vec targetDim).2
        = normalizeGuard (matVec (projectMatrix g st vec.length targetDim) vec)
      ∧ (sumSq (matVec (projectMatrix g st vec.length targetDim) vec) = 0 →
          (Projector.project g st vec targetDim).2
              = matVec (projectMatrix g st vec.length targetDim) vec
            ∧ ∀ x ∈ (Projector.project g st vec targetDim).2, x = 0)
      ∧ (sumSq (matVec (projectMatrix g st vec.length targetDim) vec) ≠ 0 →
          sumSq (Projector.project g st vec targetDim).2 = 1) := by
  have hproj : (Projector.project g st vec targetDim).2
      = normalizeGuard (matVec (projectMatrix g st vec.length targetDim) vec) := by
    simp [Projector.project, hdim]
  refine ⟨hproj, ?_, ?_⟩
  · intro h0
    have hz := normalizeGuard_of_sumSq_zero _ h0
    refine ⟨by rw [hproj, hz.1], ?_⟩
    intro x hx
    rw [hproj, hz.1] at hx
    exact hz.2 x hx
  · intro hne
    rw [hproj]
    exact normalizeGuard_unit _ hne

/-- Witness for C9 at the concrete input [1, 0] projected to dimension 1. -/
theorem C9_project_normalization_witness :
    (([1, 0] : List ℝ).length ≠ 1)
      ∧ ((Projector.project zeroStream ProjState.init [1, 0] 1).2
            = normalizeGuard
                (matVec (projectMatrix zeroStream ProjState.init ([1, 0] : List ℝ).length 1) [1, 0])
          ∧ (sumSq (matVec (projectMatrix zeroStream ProjState.init ([1, 0] : List ℝ).length 1) [1, 0]) = 0 →
              (Projector.project zeroStream ProjState.init [1, 0] 1).2
                  = matVec (projectMatrix zeroStream ProjState.init ([1, 0] : List ℝ).length 1) [1, 0]
                ∧ ∀ x ∈ (Projector.project zeroStream ProjState.init [1, 0] 1).2, x = 0)
          ∧ (sumSq (matVec (projectMatrix zeroStream ProjState.init ([1, 0] : List ℝ).length 1) [1, 0]) ≠ 0 →
              sumSq (Projector.project zeroStream ProjState.init [1, 0] 1).2 = 1)) :=
  ⟨by norm_num,
   C9_project_normalization zeroStream ProjState.init [1, 0] 1 (by norm_num)⟩

/-- C1 (amended): the matrix generated for a (base_dim, target_dim) key
depends only on the draw stream and on the generator position at generation
time. Two projector states at the same draw position, neither of which has
the key cached, produce bit-identical matrices and bit-identical projection
outputs for the same input vector. Bit-identical reproduction across runs
and processes therefore additionally requires the generator to be at the
same position (for example, the same prior sequence of first-time
(sourceDim, targetDim) pairs), not merely the same seed and dimensions. -/
theorem C1_project_deterministic_same_pos (g : RngStream) (st1 st2 : ProjState)
    (vec : List ℝ) (targetDim : Nat)
    (hpos : st1.pos = st2.pos)
    (h1 : st1.cache.lookup (vec.length, targetDim) = none)
    (h2 : st2.cache.lookup (vec.length, targetDim) = none) :
    projectMatrix g st1 vec.length targetDim = projectMatrix g st2 vec.length targetDim
      ∧ (Projector.project g st1 vec targetDim).2
          = (Projector.project g st2 vec targetDim).2 := by
  have hm : projectMatrix g st1 vec.length targetDim
      = projectMatrix g st2 vec.length targetDim := by
    simp [projectMatrix, h1, h2, hpos]
  refine ⟨hm, ?_⟩
  by_cases hdim : vec.length = targetDim
  · simp [Projector.project, hdim]
  · simp [Projector.project, hdim, hm]

/-- Witness for C1 (amended) on two fresh projector instances. -/
theorem C1_project_deterministic_same_pos_witness :
    ProjState.init.pos = ProjState.init.pos
      ∧ ProjState.init.cache.lookup (([1, 0] : List ℝ).length, 1) = none
      ∧ (projectMatrix zeroStream ProjState.init ([1, 0] : List ℝ).length 1
            = projectMatrix zeroStream ProjState.init ([1, 0] : List ℝ).length 1
          ∧ (Projector.project zeroStream ProjState.init [1, 0] 1).2
              = (Projector.project zeroStream ProjState.init [1, 0] 1).2) :=
  ⟨rfl, rfl,
   C1_project_deterministic_same_pos zeroStream ProjState.init ProjState.init [1, 0] 1 rfl rfl rfl⟩

/-- C1 counterexample: with the seeded draw stream modeled as spikeStream,
a fresh projector maps [1, 0] to dimension 1 as [1], but a projector that
first projected a 3-dimensional vector (a different (sourceDim, targetDim)
pair, which advanced the generator) maps the same [1, 0] to [0]. The same
seed, dimensions and input vector therefore do not guarantee a bit-identical
matrix or output when a different set of pairs was projected before. -/
theorem project_ne_snd (g : RngStream) (st : ProjState) (vec : List ℝ) (targetDim : Nat)
    (h : vec.length ≠ targetDim) :
    (Projector.project g st vec targetDim).2
      = normalizeGuard (matVec (projectMatrix g st vec.length targetDim) vec) := by
  simp [Projector.project, h]

theorem l2norm_single (x : ℝ) : l2norm [x] = |x| := by
  have h : sumSq [x] = x * x := by simp [sumSq]
  rw [l2norm, h, Real.sqrt_mul_self_eq_abs]

theorem normalizeGuard_single_pos (x : ℝ) (hx : 0 < x) : normalizeGuard [x] = [1] := by
  have h1 : l2norm [x] = x := by rw [l2norm_single]; exact abs_of_pos hx
  simp [normalizeGuard, h1, hx, div_self (ne_of_gt hx)]

theorem normalizeGuard_single_zero : normalizeGuard [(0 : ℝ)] = [0] := by
  have h1 : l2norm [(0 : ℝ)] = 0 := by rw [l2norm_single]; simp
  simp [normalizeGuard, h1]

theorem C1_counterexample :
    (Projector.project spikeStream
        (Projector.project spikeStream ProjState.init [5, 5, 5] 1).1 [1, 0] 1).2
      ≠ (Projector.project spikeStream ProjState.init [1, 0] 1).2 := by
  have hc : (0 : ℝ) < 1 + 1 / 10 ^ 8 := by norm_num
  -- the fresh-instance run: generated row is [1, 0], output is [1]
  have hrow1 : normalizeRow [(1 : ℝ), 0] = [1 / (1 + 1 / 10 ^ 8), 0] := by
    have hl : l2norm [(1 : ℝ), 0] = 1 := by
      simp [l2norm, sumSq, Real.sqrt_one]
    simp [normalizeRow, hl]
  have hmatA : projectMatrix spikeStream ProjState.init 2 1 = [[1 / (1 + 1 / 10 ^ 8), 0]] := by
    simp [projectMatrix, ProjState.init, genMatrix, genRawMatrix, List.range_succ,
      spikeStream, hrow1]
  have hmvA : matVec [[1 / (1 + 1 / 10 ^ 8), 0]] [(1 : ℝ), 0] = [1 / (1 + 1 / 10 ^ 8)] := by
    simp [matVec, dotList]
  have hcpos : (0 : ℝ) < 1 / (1 + 1 / 10 ^ 8) := by positivity
  have hguardA : normalizeGuard [(1 / (1 + 1 / 10 ^ 8) : ℝ)] = [1] :=
    normalizeGuard_single_pos _ hcpos
  have hA : (Projector.project spikeStream ProjState.init [1, 0] 1).2 = [1] := by
    rw [project_ne_snd spikeStream ProjState.init [1, 0] 1 (by norm_num),
      show (([1, 0] : List ℝ).length) = 2 from rfl, hmatA, hmvA, hguardA]
  -- the history-bearing run: the state after projecting a 3-vector has pos 3
  have hstA : (Projector.project spikeStream ProjState.init [5, 5, 5] 1).1
      = ⟨[((3, 1), projectMatrix spikeStream ProjState.init 3 1)], 3⟩ := by
    simp [Projector.project, ProjState.init, projectMatrix]
  have hrow0 : normalizeRow [(0 : ℝ), 0] = [0, 0] := by
    simp [normalizeRow]
  have hbeq : ((((2 : Nat), (1 : Nat)) == ((3 : Nat), (1 : Nat))) : Bool) = false := by decide
  have hmatB : projectMatrix spikeStream
      ⟨[((3, 1), projectMatrix spikeStream ProjState.init 3 1)], 3⟩ 2 1 = [[(0 : ℝ), 0]] := by
    simp [projectMatrix, List.lookup, hbeq, genMatrix, genRawMatrix, List.range_succ,
      spikeStream, hrow0]
  have hmvB : matVec [[(0 : ℝ), 0]] [(1 : ℝ), 0] = [0] := by
    simp [matVec, dotList]
  have hB : (Projector.project spikeStream
      (Projector.project spikeStream ProjState.init [5, 5, 5] 1).1 [1, 0] 1).2 = [0] := by
    rw [hstA,
      project_ne_snd spikeStream _ [1, 0] 1 (by norm_num),
      show (([1, 0] : List ℝ).length) = 2 from rfl, hmatB, hmvB, normalizeGuard_single_zero]
  rw [hA, hB]
  intro hcontra
  have h01 : (0 : ℝ) = 1 := by
    simp at hcontra
  norm_num at h01

/-! ## TripletDataset (train_triplet.py)

fetch_embeddings returns a dict keyed by desertion_no; a Python dict keeps
insertion order and has no duplicate keys, so it is modeled as an
association list whose key list is Nodup where coherence matters. The random
module calls are external primitives: random.sample(vecs, 2) is modeled by
two distinct in-range indices, and random.choice(seq) by selection at a
drawn index reduced modulo the length of seq.
-/

/-- One grouped row of the fetch_embeddings result: the vectors collected
for a desertion_no together with its kind_cd and color_cd metadata. -/
structure EntityRow where
  vecs : List (List ℝ)
  kind : String
  color : String

/-- The grouped fetch result: an association list keyed by desertion_no. -/
abbrev Grouped : Type := List (String × EntityRow)

/-- The TripletDataset constructor filter: keep only ids with at least 2
vectors (needed for strong positives). -/
def TripletDataset.eligible (grouped : Grouped) : List (String × EntityRow) :=
  grouped.filter fun p => decide (2 ≤ p.2.vecs.length)

/-- self.ids; the constructor also aliases self.neg_ids to this same list. -/
def TripletDataset.ids (grouped : Grouped) : List String :=
  (TripletDataset.eligible grouped).map Prod.fst

/-- The entry self.by_meta[(kind, color)]: the eligible ids whose row
carries that (kind_cd, color_cd) key, in insertion order. -/
def TripletDataset.byMeta (grouped : Grouped) (key : String × String) : List String :=
  ((TripletDataset.eligible grouped).filter
    fun p => p.2.kind == key.1 && p.2.color == key.2).map Prod.fst

/-- The anchor id __getitem__ selects: self.ids[idx % len(self.ids)]. -/
def TripletDataset.anchorId (grouped : Grouped) (idx : Nat) : String :=
  (TripletDataset.ids grouped).getD (idx % (TripletDataset.ids grouped).length) ""

/-- The negative-resampling loop of __getitem__ on an explicit stream of
random.choice draws, scanning from draw index i with the given fuel: the
loop body keeps drawing while the draw equals the anchor id. The source
loop is unbounded; returning none means the loop has not exited within
fuel draws. -/
def findNegFrom (pick : Nat → String) (did : String) : Nat → Nat → Option String
  | _, 0 => none
  | i, Nat.succ f => if pick i = did then findNegFrom pick did (i + 1) f else some (pick i)

/-- The resampling loop started at the first draw. -/
def findNeg (pick : Nat → String) (did : String) (fuel : Nat) : Option String :=
  findNegFrom pick did 0 fuel

/-- The random draws a single __getitem__ call consumes, made explicit. -/
structure SampleChoice where
  aIdx : Nat
  bIdx : Nat
  wPick : Nat
  wVecPick : Nat
  negPick : Nat → Nat
  negVecPick : Nat

/-- torch F.normalize(v, dim=0): divide by max(norm, eps), eps = 1e-12. -/
noncomputable def fNormalize (v : List ℝ) : List ℝ :=
  v.map fun x => x / max (l2norm v) (1 / 10 ^ 12)

/-- TripletDataset.__getitem__: anchor and strong positive are two distinct
draws from the anchor entity, the weak positive comes from a different
entity with the same (kind, color) key (falling back to the strong
positive), the negative is resampled until its id differs from the anchor
id, and all four outputs pass through F.normalize. Returns none when the
resampling loop has not exited within fuel draws, or on lookups that cannot
fail for a well-formed dict (where the source would fault instead). -/
noncomputable def TripletDataset.getitem (grouped : Grouped) (idx : Nat) (ch : SampleChoice)
    (fuel : Nat) : Option (List ℝ × List ℝ × List ℝ × List ℝ) :=
  let elig := TripletDataset.eligible grouped
  let ids := TripletDataset.ids grouped
  if ids.length = 0 then none
  else
    let did := ids.getD (idx % ids.length) ""
    match elig.lookup did with
    | none => none
    | some info =>
      let anchor := info.vecs.getD ch.aIdx []
      let posStrong := info.vecs.getD ch.bIdx []
      let weakIds := (TripletDataset.byMeta grouped (info.kind, info.color)).filter
        fun x => x != did
      let weakVec :=
        if weakIds.isEmpty then posStrong
        else
          match elig.lookup (weakIds.getD (ch.wPick % weakIds.length) "") with
          | none => []
          | some w => w.vecs.getD (ch.wVecPick % w.vecs.length) []
      match findNeg (fun n => ids.getD (ch.negPick n % ids.length) "") did fuel with
      | none => none
      | some negId =>
        match elig.lookup negId with
        | none => none
        | some negInfo =>
          some (fNormalize anchor, fNormalize posStrong, fNormalize weakVec,
            fNormalize (negInfo.vecs.getD (ch.negVecPick % negInfo.vecs.length) []))

theorem findNegFrom_some (pick : Nat → String) (did : String) :
    ∀ fuel i v, findNegFrom pick did i fuel = some v → (∃ j, v = pick j) ∧ v ≠ did := by
  intro fuel
  induction fuel with
  | zero => intro i v h; simp [findNegFrom] at h
  | succ f ih =>
    intro i v h
    simp only [findNegFrom] at h
    by_cases hp : pick i = did
    · rw [if_pos hp] at h
      exact ih (i + 1) v h
    · rw [if_neg hp] at h
      have hv : pick i = v := by
        injection h
      exact ⟨⟨i, hv.symm⟩, hv ▸ hp⟩

theorem findNegFrom_none_of_all (pick : Nat → String) (did : String)
    (hall : ∀ n, pick n = did) : ∀ fuel i, findNegFrom pick did i fuel = none := by
  intro fuel
  induction fuel with
  | zero => intro i; rfl
  | succ f ih =>
    intro i
    simp only [findNegFrom]
    rw [if_pos (hall i)]
    exact ih (i + 1)

theorem findNegFrom_finds (pick : Nat → String) (did : String) :
    ∀ f i, (∀ k, k < f → pick (i + k) = did) → pick (i + f) ≠ did →
      findNegFrom pick did i (f + 1) = some (pick (i + f)) := by
  intro f
  induction f with
  | zero =>
    intro i _ hne
    simp only [findNegFrom]
    rw [if_neg (by simpa using hne)]
    simp
  | succ f ih =>
    intro i hall hne
    have h0 : pick i = did := by simpa using hall 0 (Nat.succ_pos f)
    simp only [findNegFrom]
    rw [if_pos h0]
    have hall1 : ∀ k, k < f → pick (i + 1 + k) = did := by
      intro k hk
      have := hall (k + 1) (by omega)
      have harw : i + (k + 1) = i + 1 + k := by omega
      rwa [harw] at this
    have hne1 : pick (i + 1 + f) ≠ did := by
      have harw : i + (f + 1) = i + 1 + f := by omega
      rwa [harw] at hne
    have hgoal := ih (i + 1) hall1 hne1
    have harw : i + 1 + f = i + (f + 1) := by omega
    rwa [harw] at hgoal

theorem findNeg_of_eventually (pick : Nat → String) (did : String)
    (h : ∃ n, pick n ≠ did) :
    ∃ fuel v, findNeg pick did fuel = some v ∧ v ≠ did := by
  classical
  have hn : pick (Nat.find h) ≠ did := Nat.find_spec h
  have hmin : ∀ k, k < Nat.find h → pick k = did := by
    intro k hk
    have := Nat.find_min h hk
    exact not_not.mp this
  refine ⟨Nat.find h + 1, pick (Nat.find h), ?_, hn⟩
  have hfind := findNegFrom_finds pick did (Nat.find h) 0
    (fun k hk => by simpa using hmin k hk) (by simpa using hn)
  simpa [findNeg] using hfind

theorem exists_getD_ne (l : List String) (hnd : l.Nodup) (hlen : 2 ≤ l.length)
    (x : String) : ∃ j, j < l.length ∧ l.getD j "" ≠ x := by
  match l, hnd, hlen with
  | a :: b :: rest, hnd, _ =>
    have hab : a ≠ b := by
      have := (List.nodup_cons.mp hnd).1
      intro hcontra
      exact this (hcontra ▸ List.mem_cons_self b rest)
    by_cases hax : a = x
    · refine ⟨1, by simp, ?_⟩
      simp only [List.getD_cons_succ, List.getD_cons_zero]
      intro hbx
      exact hab (hax ▸ hbx ▸ rfl)
    · exact ⟨0, by simp, by simpa using hax⟩

/-- C10: the negative pool of __getitem__ is the eligible-id list itself
(the constructor aliases neg_ids to ids). With at least two eligible
entities the pool contains an id different from the anchor id, and every
draw stream that eventually picks one (an event of probability 1 for
uniform draws from such a pool) makes the resampling loop terminate with a
negative id different from the anchor. With exactly one eligible entity
every pool draw equals the anchor id, so the loop body condition always
holds and the loop never exits at any fuel. -/
theorem C10_negative_loop (grouped : Grouped) (idx : Nat)
    (hnodup : (TripletDataset.ids grouped).Nodup) :
    (2 ≤ (TripletDataset.ids grouped).length →
        (∃ j, j < (TripletDataset.ids grouped).length
            ∧ (TripletDataset.ids grouped).getD j "" ≠ TripletDataset.anchorId grouped idx)
          ∧ ∀ pick : Nat → String,
              (∃ n, pick n ≠ TripletDataset.anchorId grouped idx) →
              ∃ fuel v, findNeg pick (TripletDataset.anchorId grouped idx) fuel = some v
                ∧ v ≠ TripletDataset.anchorId grouped idx)
      ∧ ((TripletDataset.ids grouped).length = 1 →
          ∀ pick : Nat → String,
            (∀ n, pick n ∈ TripletDataset.ids grouped) →
            ∀ fuel, findNeg pick (TripletDataset.anchorId grouped idx) fuel = none) := by
  constructor
  · intro hlen
    refine ⟨exists_getD_ne _ hnodup hlen _, ?_⟩
    intro pick hev
    exact findNeg_of_eventually pick _ hev
  · intro hlen pick hpool fuel
    obtain ⟨d, hd⟩ := List.length_eq_one.mp hlen
    have hdid : TripletDataset.anchorId grouped idx = d := by
      simp [TripletDataset.anchorId, hd, Nat.mod_one]
    have hall : ∀ n, pick n = TripletDataset.anchorId grouped idx := by
      intro n
      have := hpool n
      rw [hd] at this
      simp at this
      rw [hdid, this]
    exact findNegFrom_none_of_all pick _ hall fuel 0

/-- Sample rows used to instantiate the dataset theorems. -/
noncomputable def sampleRow1 : EntityRow := ⟨[[1, 0], [0, 1]], "dog", "white"⟩

/-- Second sample row, same (kind, color) key as the first. -/
noncomputable def sampleRow2 : EntityRow := ⟨[[3, 4], [1, 0]], "dog", "white"⟩

/-- A two-entity grouped fetch result with two vectors per entity. -/
noncomputable def sampleGrouped : Grouped := [("e1", sampleRow1), ("e2", sampleRow2)]

/-- Witness for C10 on the two-entity sample dataset. -/
theorem C10_negative_loop_witness :
    (TripletDataset.ids sampleGrouped).Nodup
      ∧ ((2 ≤ (TripletDataset.ids sampleGrouped).length →
            (∃ j, j < (TripletDataset.ids sampleGrouped).length
                ∧ (TripletDataset.ids sampleGrouped).getD j ""
                  ≠ TripletDataset.anchorId sampleGrouped 0)
              ∧ ∀ pick : Nat → String,
                  (∃ n, pick n ≠ TripletDataset.anchorId sampleGrouped 0) →
                  ∃ fuel v, findNeg pick (TripletDataset.anchorId sampleGrouped 0) fuel = some v
                    ∧ v ≠ TripletDataset.anchorId sampleGrouped 0)
          ∧ ((TripletDataset.ids sampleGrouped).length = 1 →
              ∀ pick : Nat → String,
                (∀ n, pick n ∈ TripletDataset.ids sampleGrouped) →
                ∀ fuel, findNeg pick (TripletDataset.anchorId sampleGrouped 0) fuel = none)) :=
  ⟨by decide, C10_negative_loop sampleGrouped 0 (by decide)⟩

theorem fNormalize_unit (v : List ℝ) (h : (1 : ℝ) / 10 ^ 12 ≤ l2norm v) :
    sumSq (fNormalize v) = 1 := by
  have hmax : max (l2norm v) (1 / 10 ^ 12) = l2norm v := max_eq_left h
  have hpos : 0 < l2norm v := lt_of_lt_of_le (by norm_num) h
  have hsq : sumSq v ≠ 0 := by
    have := Real.sqrt_pos.mp (by simpa [l2norm] using hpos)
    exact ne_of_gt this
  have hmul : l2norm v * l2norm v = sumSq v := by
    simpa [l2norm] using Real.mul_self_sqrt (sumSq_nonneg v)
  simp only [fNormalize, hmax, sumSq_map_div, hmul]
  exact div_self hsq

theorem lookup_eq_some_of_mem {β : Type} (l : List (String × β))
    (hnd : (l.map Prod.fst).Nodup) (k : String) (r : β) (h : (k, r) ∈ l) :
    l.lookup k = some r := by
  induction l with
  | nil => simp at h
  | cons p rest ih =>
    obtain ⟨k1, r1⟩ := p
    simp only [List.map_cons, List.nodup_cons] at hnd
    rcases List.mem_cons.mp h with heq | hmem
    · injection heq with hk hr
      subst hk
      subst hr
      simp [List.lookup]
    · have hk : k ≠ k1 := by
        intro hcontra
        apply hnd.1
        subst hcontra
        exact List.mem_map_of_mem Prod.fst hmem
      simp only [List.lookup, beq_eq_false_iff_ne.mpr hk]
      exact ih hnd.2 hmem

theorem eligible_keys_nodup (grouped : Grouped) (h : (grouped.map Prod.fst).Nodup) :
    ((TripletDataset.eligible grouped).map Prod.fst).Nodup := by
  have hsub : List.Sublist (TripletDataset.eligible grouped) grouped :=
    List.filter_sublist grouped
  exact List.Nodup.sublist (List.Sublist.map Prod.fst hsub) h

theorem byMeta_mem (grouped : Grouped) (key : String × String) (wId : String)
    (h : wId ∈ TripletDataset.byMeta grouped key) :
    ∃ r, (wId, r) ∈ TripletDataset.eligible grouped ∧ r.kind = key.1 ∧ r.color = key.2 := by
  simp only [TripletDataset.byMeta, List.mem_map] at h
  obtain ⟨⟨k1, r1⟩, hp, hfst⟩ := h
  have hk : k1 = wId := hfst
  subst hk
  have hmf := List.mem_filter.mp hp
  have hcond := hmf.2
  simp only [Bool.and_eq_true, beq_iff_eq] at hcond
  exact ⟨r1, hmf.1, hcond.1, hcond.2⟩

theorem getD_mem_of_lt {α : Type} (l : List α) (i : Nat) (d : α) (h : i < l.length) :
    l.getD i d ∈ l := by
  rw [List.getD_eq_getElem l d h]
  exact List.getElem_mem h

/-- C8: for every value __getitem__ returns, the anchor and the strong
positive are the F.normalize images of two vectors of the anchor entity
drawn at distinct indices; the negative comes from an eligible entity whose
id differs from the anchor id; the weak positive comes from a different
entity sharing the anchor (kind, color) key when one exists and otherwise
falls back to the strong positive; and every returned vector whose
underlying raw vector clears the F.normalize eps clamp (1e-12) has unit
norm (sum of squares exactly 1). -/
theorem C8_triplet_validity (grouped : Grouped) (idx : Nat) (ch : SampleChoice) (fuel : Nat)
    (info : EntityRow) (a ps pw n : List ℝ)
    (hkeys : (grouped.map Prod.fst).Nodup)
    (hinfo : (TripletDataset.eligible grouped).lookup (TripletDataset.anchorId grouped idx)
        = some info)
    (hab : ch.aIdx ≠ ch.bIdx)
    (hres : TripletDataset.getitem grouped idx ch fuel = some (a, ps, pw, n)) :
    (a = fNormalize (info.vecs.getD ch.aIdx [])
        ∧ ps = fNormalize (info.vecs.getD ch.bIdx [])
        ∧ ch.aIdx ≠ ch.bIdx
        ∧ ((1 : ℝ) / 10 ^ 12 ≤ l2norm (info.vecs.getD ch.aIdx []) → sumSq a = 1)
        ∧ ((1 : ℝ) / 10 ^ 12 ≤ l2norm (info.vecs.getD ch.bIdx []) → sumSq ps = 1))
      ∧ (∃ negId negInfo,
          negId ∈ TripletDataset.ids grouped
            ∧ negId ≠ TripletDataset.anchorId grouped idx
            ∧ (TripletDataset.eligible grouped).lookup negId = some negInfo
            ∧ n = fNormalize (negInfo.vecs.getD (ch.negVecPick % negInfo.vecs.length) [])
            ∧ ((1 : ℝ) / 10 ^ 12
                  ≤ l2norm (negInfo.vecs.getD (ch.negVecPick % negInfo.vecs.length) []) →
                sumSq n = 1))
      ∧ (((TripletDataset.byMeta grouped (info.kind, info.color)).filter
            (fun x => x != TripletDataset.anchorId grouped idx) = [] → pw = ps)
          ∧ ((TripletDataset.byMeta grouped (info.kind, info.color)).filter
              (fun x => x != TripletDataset.anchorId grouped idx) ≠ [] →
            ∃ wId wInfo,
              wId ≠ TripletDataset.anchorId grouped idx
                ∧ (TripletDataset.eligible grouped).lookup wId = some wInfo
                ∧ wInfo.kind = info.kind ∧ wInfo.color = info.color
                ∧ pw = fNormalize (wInfo.vecs.getD (ch.wVecPick % wInfo.vecs.length) [])
                ∧ ((1 : ℝ) / 10 ^ 12
                      ≤ l2norm (wInfo.vecs.getD (ch.wVecPick % wInfo.vecs.length) []) →
                    sumSq pw = 1))) := by
  classical
  by_cases hlen : (TripletDataset.ids grouped).length = 0
  · rw [TripletDataset.getitem] at hres
    simp [hlen] at hres
  · have hlenpos : 0 < (TripletDataset.ids grouped).length := Nat.pos_of_ne_zero hlen
    rw [TripletDataset.getitem] at hres
    simp only [if_neg hlen] at hres
    rw [show (TripletDataset.ids grouped).getD (idx % (TripletDataset.ids grouped).length) ""
        = TripletDataset.anchorId grouped idx from rfl] at hres
    rw [hinfo] at hres
    simp only [] at hres
    cases hfind : findNeg
        (fun m => (TripletDataset.ids grouped).getD
          (ch.negPick m % (TripletDataset.ids grouped).length) "")
        (TripletDataset.anchorId grouped idx) fuel with
    | none => rw [hfind] at hres; simp at hres
    | some negId =>
      rw [hfind] at hres
      simp only [] at hres
      cases hlookN : (TripletDataset.eligible grouped).lookup negId with
      | none => rw [hlookN] at hres; simp at hres
      | some negInfo =>
        rw [hlookN] at hres
        simp only [Option.some.injEq, Prod.mk.injEq] at hres
        obtain ⟨ha, hps, hpw, hn⟩ := hres
        have hfindprops := findNegFrom_some _ _ fuel 0 negId hfind
        obtain ⟨⟨j, hj⟩, hne⟩ := hfindprops
        refine ⟨⟨ha.symm, hps.symm, hab, ?_, ?_⟩, ?_, ?_, ?_⟩
        · intro hclamp
          rw [← ha]
          exact fNormalize_unit _ hclamp
        · intro hclamp
          rw [← hps]
          exact fNormalize_unit _ hclamp
        · refine ⟨negId, negInfo, ?_, hne, hlookN, hn.symm, ?_⟩
          · rw [hj]
            exact getD_mem_of_lt _ _ _ (Nat.mod_lt _ hlenpos)
          · intro hclamp
            rw [← hn]
            exact fNormalize_unit _ hclamp
        · intro hw
          rw [← hpw, ← hps]
          simp [hw]
        · intro hw
          have hwlen : 0 < ((TripletDataset.byMeta grouped (info.kind, info.color)).filter
              (fun x => x != TripletDataset.anchorId grouped idx)).length :=
            List.length_pos.mpr hw
          set wId0 := ((TripletDataset.byMeta grouped (info.kind, info.color)).filter
            (fun x => x != TripletDataset.anchorId grouped idx)).getD
              (ch.wPick % ((TripletDataset.byMeta grouped (info.kind, info.color)).filter
                (fun x => x != TripletDataset.anchorId grouped idx)).length) "" with hwId0
          have hwmem : wId0 ∈ (TripletDataset.byMeta grouped (info.kind, info.color)).filter
              (fun x => x != TripletDataset.anchorId grouped idx) := by
            rw [hwId0]
            exact getD_mem_of_lt _ _ _ (Nat.mod_lt _ hwlen)
          have hwfilter := List.mem_filter.mp hwmem
          have hwne : wId0 ≠ TripletDataset.anchorId grouped idx := by
            have := hwfilter.2
            simpa using this
          obtain ⟨r, hrmem, hrkind, hrcolor⟩ := byMeta_mem grouped _ wId0 hwfilter.1
          have hrlookup : (TripletDataset.eligible grouped).lookup wId0 = some r :=
            lookup_eq_some_of_mem _ (eligible_keys_nodup grouped hkeys) _ _ hrmem
          have hnotempty : ((TripletDataset.byMeta grouped (info.kind, info.color)).filter
              (fun x => x != TripletDataset.anchorId grouped idx)).isEmpty = false := by
            simp [List.isEmpty_iff, hw]
          have hpweq : pw = fNormalize (r.vecs.getD (ch.wVecPick % r.vecs.length) []) := by
            rw [← hpw]
            rw [if_neg (by simp [hnotempty])]
            rw [hrlookup]
          refine ⟨wId0, r, hwne, hrlookup, hrkind, hrcolor, hpweq, ?_⟩
          intro hclamp
          rw [hpweq]
          exact fNormalize_unit _ hclamp

/-- The concrete draws used to instantiate the __getitem__ theorem. -/
def sampleChoice : SampleChoice := ⟨0, 1, 0, 0, fun _ => 1, 0⟩

/-- Witness for C8 on the two-entity sample dataset. -/
theorem C8_triplet_validity_witness :
    (sampleGrouped.map Prod.fst).Nodup
      ∧ (TripletDataset.eligible sampleGrouped).lookup (TripletDataset.anchorId sampleGrouped 0)
          = some sampleRow1
      ∧ sampleChoice.aIdx ≠ sampleChoice.bIdx
      ∧ TripletDataset.getitem sampleGrouped 0 sampleChoice 1
          = some (fNormalize [1, 0], fNormalize [0, 1], fNormalize [3, 4], fNormalize [3, 4])
      ∧ ((fNormalize [1, 0] = fNormalize (sampleRow1.vecs.getD sampleChoice.aIdx [])
            ∧ fNormalize [0, 1] = fNormalize (sampleRow1.vecs.getD sampleChoice.bIdx [])
            ∧ sampleChoice.aIdx ≠ sampleChoice.bIdx
            ∧ ((1 : ℝ) / 10 ^ 12 ≤ l2norm (sampleRow1.vecs.getD sampleChoice.aIdx []) →
                sumSq (fNormalize [1, 0]) = 1)
            ∧ ((1 : ℝ) / 10 ^ 12 ≤ l2norm (sampleRow1.vecs.getD sampleChoice.bIdx []) →
                sumSq (fNormalize [0, 1]) = 1))
          ∧ (∃ negId negInfo,
              negId ∈ TripletDataset.ids sampleGrouped
                ∧ negId ≠ TripletDataset.anchorId sampleGrouped 0
                ∧ (TripletDataset.eligible sampleGrouped).lookup negId = some negInfo
                ∧ fNormalize [3, 4]
                    = fNormalize (negInfo.vecs.getD (sampleChoice.negVecPick % negInfo.vecs.length) [])
                ∧ ((1 : ℝ) / 10 ^ 12
                      ≤ l2norm (negInfo.vecs.getD (sampleChoice.negVecPick % negInfo.vecs.length) []) →
                    sumSq (fNormalize [3, 4]) = 1))
          ∧ (((TripletDataset.byMeta sampleGrouped (sampleRow1.kind, sampleRow1.color)).filter
                (fun x => x != TripletDataset.anchorId sampleGrouped 0) = [] →
                fNormalize [3, 4] = fNormalize [0, 1])
              ∧ ((TripletDataset.byMeta sampleGrouped (sampleRow1.kind, sampleRow1.color)).filter
                  (fun x => x != TripletDataset.anchorId sampleGrouped 0) ≠ [] →
                ∃ wId wInfo,
                  wId ≠ TripletDataset.anchorId sampleGrouped 0
                    ∧ (TripletDataset.eligible sampleGrouped).lookup wId = some wInfo
                    ∧ wInfo.kind = sampleRow1.kind ∧ wInfo.color = sampleRow1.color
                    ∧ fNormalize [3, 4]
                        = fNormalize (wInfo.vecs.getD (sampleChoice.wVecPick % wInfo.vecs.length) [])
                    ∧ ((1 : ℝ) / 10 ^ 12
                          ≤ l2norm (wInfo.vecs.getD (sampleChoice.wVecPick % wInfo.vecs.length) []) →
                        sumSq (fNormalize [3, 4]) = 1)))) :=
  ⟨by decide, by rfl, by decide, by rfl,
   C8_triplet_validity sampleGrouped 0 sampleChoice 1 sampleRow1
     (fNormalize [1, 0]) (fNormalize [0, 1]) (fNormalize [3, 4]) (fNormalize [3, 4])
     (by decide) (by rfl) (by decide) (by rfl)⟩

/-! ## Trainer (train_triplet.py)

The epoch body (batched gradient updates followed by a no-update validation
pass) runs entirely inside the external torch library; it is abstracted as a
state transformer applied once per epoch to the model state. What the
embedding captures from the source is the control flow that the claims are
about: the two raises that precede the loop, the possibly diverging batch
sampling inside the loop, the epoch loop applying the step a fixed number
of times, and the checkpoint persisted afterwards with the final-epoch
weights and the metadata fields. The pre-loop raises are the explicit
RuntimeError on an empty fetched group and, for a nonempty group with no
eligible entity, the ValueError that torch RandomSampler raises at
DataLoader(train_ds, shuffle=True) construction because
len(train_ds) = len(eligible ids) * length_mult is then 0 (torch versions
with the mps check used at line 18 all perform this num_samples > 0 check
in RandomSampler.__init__).
-/

/-- A persisted checkpoint: torch.save of the final state_dict together
with the metadata fields embed_dim, table, epochs and margin. -/
structure Checkpoint (Model : Type) where
  state_dict : Model
  embed_dim : Nat
  table : String
  epochs : Nat
  margin : ℚ

/-- train(...): the source raises the explicit RuntimeError when the
fetched group is empty; otherwise it builds the TripletDataset, whose
length is the number of eligible ids (those with at least 2 vectors) times
the length multiplier, and constructs DataLoader(train_ds, shuffle=True),
whose RandomSampler raises its num_samples ValueError at construction when
that length is zero — both raises happen before any epoch and persist
nothing. The epoch loop then iterates batches drawn through __getitem__,
whose negative-resampling loop may never exit; samplingExits states that
every sampling loop the run performs (training and validation loaders)
exits, so the run completes, and none models the diverging run, which also
persists nothing (with zero epochs no batch is ever drawn, so the run
always completes). On completion one checkpoint is persisted holding the
state after the last epoch (no best-validation selection) plus the
metadata fields. -/
def train {Model : Type} (epochStep : Model → Model) (init : Model)
    (trainGroup : Grouped) (table : String) (embedDim epochs : Nat) (margin : ℚ)
    (samplingExits : Bool) : Option (Except String (Checkpoint Model)) :=
  if trainGroup.isEmpty then
    some (Except.error "No train embeddings found. Run prepare_triplet_data.py first.")
  else if (TripletDataset.eligible trainGroup).isEmpty then
    some (Except.error "num_samples should be a positive integer value, but got num_samples=0")
  else if epochs = 0 ∨ samplingExits then
    some (Except.ok
      { state_dict := epochStep^[epochs] init
        embed_dim := embedDim
        table := table
        epochs := epochs
        margin := margin })
  else none

/-- One step of _parse_dims: skip blank or unparseable tokens and
duplicates, append new dimensions in order. The source tracks a separate
seen set whose contents always equal the accumulated list. -/
def parseDimsStep (acc : List Nat) (t : Option Nat) : List Nat :=
  match t with
  | none => acc
  | some d => if d ∈ acc then acc else acc ++ [d]

/-- _parse_dims over the comma-split tokens; int() parsing is external, so
a token is modeled as some d when it parses and none when it is blank or
raises ValueError. -/
def parseDims (tokens : List (Option Nat)) : List Nat :=
  tokens.foldl parseDimsStep []

/-- The __main__ dimension loop: for each parsed dimension, train once on
table animal_embeddings_<dim>, persisting one checkpoint keyed by that
dimension when the run completes. -/
def trainAll {Model : Type} (epochStep : Model → Model) (init : Model)
    (fetch : Nat → Grouped) (epochs : Nat) (margin : ℚ) (tokens : List (Option Nat))
    (samplingExits : Bool) :
    List (Nat × Option (Except String (Checkpoint Model))) :=
  (parseDims tokens).map fun d =>
    (d, train epochStep init (fetch d) ("animal_embeddings_" ++ toString d) d epochs margin
      samplingExits)

theorem parseDimsStep_nodup (acc : List Nat) (t : Option Nat) (h : acc.Nodup) :
    (parseDimsStep acc t).Nodup := by
  cases t with
  | none => exact h
  | some d =>
    by_cases hd : d ∈ acc
    · simpa [parseDimsStep, hd] using h
    · simp only [parseDimsStep, if_neg hd]
      rw [List.nodup_append]
      refine ⟨h, List.nodup_singleton d, ?_⟩
      intro a ha hb
      simp only [List.mem_singleton] at hb
      subst hb
      exact hd ha

theorem parseDims_foldl_nodup (tokens : List (Option Nat)) :
    ∀ acc : List Nat, acc.Nodup → (tokens.foldl parseDimsStep acc).Nodup := by
  induction tokens with
  | nil => intro acc h; exact h
  | cons t ts ih =>
    intro acc h
    exact ih _ (parseDimsStep_nodup acc t h)

theorem parseDims_nodup (tokens : List (Option Nat)) : (parseDims tokens).Nodup :=
  parseDims_foldl_nodup tokens [] List.nodup_nil

theorem map_fst_map_pair {α β : Type} (l : List α) (f : α → β) :
    (l.map fun d => (d, f d)).map Prod.fst = l := by
  induction l with
  | nil => rfl
  | cons x xs ih => simp only [List.map_cons, ih]

/-- Single-entity grouped result whose only entity has a single vector. -/
noncomputable def loneGrouped : Grouped := [("e1", ⟨[[1, 0]], "dog", "white"⟩)]

/-- C2: whenever the fetched training data contains no entity usable as an
anchor/strong-positive source (no entityId with at least 2 vectors), train
raises before any epoch runs and persists no checkpoint: an empty fetch
hits the explicit RuntimeError, and a nonempty all-ineligible fetch makes
the TripletDataset length zero, so DataLoader(train_ds, shuffle=True)
raises the RandomSampler num_samples ValueError at construction. In both
cases the error message is independent of the epoch step, the initial
state, the epoch count and the sampling draws, showing the raise precedes
the loop, and the outcome is an error rather than a persisted checkpoint. -/
theorem C2_zero_eligible_fatal (Model : Type) (trainGroup : Grouped) (table : String)
    (embedDim : Nat) (margin : ℚ)
    (helig : TripletDataset.eligible trainGroup = []) :
    ∃ msg, ∀ (epochStep : Model → Model) (init : Model) (epochs : Nat)
        (samplingExits : Bool),
      train epochStep init trainGroup table embedDim epochs margin samplingExits
        = some (Except.error msg) := by
  by_cases hempty : trainGroup.isEmpty
  · refine ⟨"No train embeddings found. Run prepare_triplet_data.py first.", ?_⟩
    intro epochStep init epochs samplingExits
    simp [train, hempty]
  · refine ⟨"num_samples should be a positive integer value, but got num_samples=0", ?_⟩
    intro epochStep init epochs samplingExits
    simp [train, hempty, helig]

/-- Witness for C2 on a nonempty group whose only entity has one vector:
the run raises (the ValueError path) for every epoch configuration. -/
theorem C2_zero_eligible_fatal_witness :
    TripletDataset.eligible loneGrouped = []
      ∧ ∃ msg, ∀ (epochStep : Unit → Unit) (init : Unit) (epochs : Nat)
          (samplingExits : Bool),
        train epochStep init loneGrouped "animal_embeddings_1024" 1024 epochs (1 / 5)
            samplingExits
          = some (Except.error msg) :=
  ⟨rfl, C2_zero_eligible_fatal Unit loneGrouped "animal_embeddings_1024" 1024 (1 / 5) rfl⟩

/-- C5: when training completes — every dimension has at least one
eligible entity, so neither pre-loop raise fires, and the sampling loops
of the run exit — the __main__ loop persists exactly one checkpoint per
parsed embedding dimension (the parsed dimension list has no duplicates),
and each checkpoint holds the model state after the final epoch (the epoch
step iterated epochs times from the initial state, with no best-validation
selection) together with the metadata fields embed_dim, source table,
epoch count and margin. -/
theorem C5_one_checkpoint_per_dim {Model : Type} (epochStep : Model → Model) (init : Model)
    (fetch : Nat → Grouped) (epochs : Nat) (margin : ℚ) (tokens : List (Option Nat))
    (hfetch : ∀ d, TripletDataset.eligible (fetch d) ≠ []) :
    ((trainAll epochStep init fetch epochs margin tokens true).map Prod.fst).Nodup
      ∧ (trainAll epochStep init fetch epochs margin tokens true).map Prod.fst
          = parseDims tokens
      ∧ ∀ p ∈ trainAll epochStep init fetch epochs margin tokens true,
          p.2 = some (Except.ok
            { state_dict := epochStep^[epochs] init, embed_dim := p.1,
              table := "animal_embeddings_" ++ toString p.1, epochs := epochs,
              margin := margin }) := by
  have hmap : (trainAll epochStep init fetch epochs margin tokens true).map Prod.fst
      = parseDims tokens := by
    simp only [trainAll]
    exact map_fst_map_pair _ _
  refine ⟨?_, hmap, ?_⟩
  · rw [hmap]
    exact parseDims_nodup tokens
  · intro p hp
    simp only [trainAll, List.mem_map] at hp
    obtain ⟨d, _, hpd⟩ := hp
    subst hpd
    have hne : ¬ (fetch d).isEmpty = true := by
      intro hcontra
      apply hfetch d
      rw [List.isEmpty_iff.mp hcontra]
      rfl
    have helig : ¬ (TripletDataset.eligible (fetch d)).isEmpty = true := by
      intro hcontra
      exact hfetch d (List.isEmpty_iff.mp hcontra)
    simp [train, hne, helig]

/-- Witness for C5 with a duplicated and part-invalid token list over a
two-entity eligible dataset. -/
theorem C5_one_checkpoint_per_dim_witness :
    (∀ d, TripletDataset.eligible ((fun _ : Nat => sampleGrouped) d) ≠ [])
      ∧ (((@trainAll Unit id () (fun _ => sampleGrouped) 3 (1 / 5)
            [some 4, none, some 4, some 8] true).map Prod.fst).Nodup
          ∧ (@trainAll Unit id () (fun _ => sampleGrouped) 3 (1 / 5)
              [some 4, none, some 4, some 8] true).map Prod.fst
            = parseDims [some 4, none, some 4, some 8]
          ∧ ∀ p ∈ @trainAll Unit id () (fun _ => sampleGrouped) 3 (1 / 5)
              [some 4, none, some 4, some 8] true,
              p.2 = some (Except.ok
                { state_dict := id^[3] (), embed_dim := p.1,
                  table := "animal_embeddings_" ++ toString p.1, epochs := 3,
                  margin := 1 / 5 })) :=
  ⟨fun _ => by
      rw [show TripletDataset.eligible sampleGrouped = sampleGrouped from rfl]
      exact List.cons_ne_nil _ _,
   C5_one_checkpoint_per_dim id () (fun _ => sampleGrouped) 3 (1 / 5)
     [some 4, none, some 4, some 8]
     (fun _ => by
       rw [show TripletDataset.eligible sampleGrouped = sampleGrouped from rfl]
       exact List.cons_ne_nil _ _)⟩

/-! ## Retriever (triplet_similarity.py)

The cosine scores of both stages are computed by the external float linear
algebra (normalized matrix products, optionally through the loaded triplet
head); they enter the embedding as score functions of the adjusted query
vector and the stored row. The claims settled here concern shortlist size,
deduplication, dimension handling and the empty-dataset branch, none of
which depends on the numeric score values.
-/

/-- The query bounding box emitted with every payload: x1, y1, x2, y2 as
ints plus the detector confidence. -/
structure Detection where
  x1 : Int
  y1 : Int
  x2 : Int
  y2 : Int
  conf : ℚ

/-- One stored embedding row joined with its animal metadata, as consumed
by the filters and the result construction. The notice date reaches the
filter as an ISO string parsed by the external datetime library; the parse
result is modeled as an optional day number (none for an empty or
unparseable string). -/
structure DbEmbedding where
  desertion_no : String
  side : String
  vec : List ℚ
  up_kind_cd : String
  sex_cd : String
  notice_sdt : Option Nat

/-- Filter acceptance for one row: animal type code, gender (compared
against the upper-cased sex code), and notice date on or after the lost
date, rows without a parseable date being dropped while that filter is
active. -/
def passesFilters (animalCode gender : String) (lostDate : Option Nat)
    (e : DbEmbedding) : Bool :=
  (animalCode == "" || e.up_kind_cd == animalCode)
    && (gender == "" || e.sex_cd.toUpper == gender)
    && (match lostDate with
        | none => true
        | some d =>
          match e.notice_sdt with
          | none => false
          | some nd => decide (d ≤ nd))

/-- The filter block of main(): rows are filtered only when at least one
filter is active, otherwise the dataset passes through unchanged. -/
def applyFilters (animalCode gender : String) (lostDate : Option Nat)
    (dataset : List DbEmbedding) : List DbEmbedding :=
  if animalCode ≠ "" ∨ gender ≠ "" ∨ lostDate.isSome then
    dataset.filter (passesFilters animalCode gender lostDate)
  else dataset

/-- Stable descending insertion by a rational key. -/
def insertDesc {α : Type} (key : α → ℚ) (x : α) : List α → List α
  | [] => [x]
  | y :: ys => if key y ≤ key x then x :: y :: ys else y :: insertDesc key x ys

/-- Stable descending sort by a rational key, modeling both the ordered
output of torch.topk and the stable python sorted(..., reverse=True). -/
def sortDesc {α : Type} (key : α → ℚ) (l : List α) : List α :=
  l.foldr (insertDesc key) []

/-- First-stage candidate pool size, default 500 (the environment override
is external configuration). -/
def COARSE_TOPK : Nat := 500

/-- Stage 1: topn = min(len(dataset), max(topk, coarsePool)) rows with the
highest coarse scores, in descending score order, as torch.topk returns
them. -/
def coarseShortlist (score : DbEmbedding → ℚ) (coarsePool : Nat)
    (dataset : List DbEmbedding) (topk : Nat) : List DbEmbedding :=
  (sortDesc score dataset).take (min dataset.length (max topk coarsePool))

/-- Stage 2 scores: every shortlisted row rescored through the triplet
head. The source computes these in fixed-size batches of 512; the batches
are disjoint chunks, so the collected list is the per-row map. -/
def rerankScores (rerank : DbEmbedding → ℚ) (shortlist : List DbEmbedding) :
    List (ℚ × DbEmbedding) :=
  shortlist.map fun e => (rerank e, e)

/-- One step of the dedup loop over the sorted score list: a dict update
that inserts a first occurrence at the end and replaces in place on a
strictly higher similarity. -/
def updateBest (acc : List (String × ℚ × DbEmbedding)) (sv : ℚ × DbEmbedding) :
    List (String × ℚ × DbEmbedding) :=
  match acc with
  | [] => [(sv.2.desertion_no, sv)]
  | (k, cur) :: rest =>
    if k = sv.2.desertion_no then
      (if cur.1 < sv.1 then (k, sv) :: rest else (k, cur) :: rest)
    else (k, cur) :: updateBest rest sv

/-- best_per_id: the dedup dict after folding the scored list. -/
def bestPerId (scores : List (ℚ × DbEmbedding)) : List (String × ℚ × DbEmbedding) :=
  scores.foldl updateBest []

/-- The sorted rerank-score list the dedup loop consumes. -/
def stageScores (coarse rerank : DbEmbedding → ℚ) (coarsePool : Nat)
    (dataset : List DbEmbedding) (topk : Nat) : List (ℚ × DbEmbedding) :=
  sortDesc (fun sv => sv.1) (rerankScores rerank (coarseShortlist coarse coarsePool dataset topk))

/-- The JSON payload printed by main(): the query bbox metadata plus the
result list, each entry a similarity paired with the row whose metadata is
passed through unchanged. -/
structure Payload where
  query_bbox : Detection
  results : List (ℚ × DbEmbedding)

/-- Stages 1-4 of main() on a nonempty filtered dataset: coarse top-N, head
rerank, descending sort, per-id dedup keeping the maximum, descending sort
of the kept values, top-K. -/
def searchStage (coarse rerank : DbEmbedding → ℚ) (coarsePool : Nat)
    (dataset : List DbEmbedding) (det : Detection) (topk : Nat) : Payload :=
  let scores := stageScores coarse rerank coarsePool dataset topk
  let deduped := sortDesc (fun sv => sv.1) ((bestPerId scores).map fun p => p.2)
  { query_bbox := det, results := deduped.take topk }

/-- The query-dimension check of main(): a longer query vector is truncated
to the configured dimension, a shorter one raises the dimension-mismatch
RuntimeError. -/
def adjustQuery (queryVec : List ℚ) (embedDim : Nat) : Except String (List ℚ) :=
  if queryVec.length = embedDim then Except.ok queryVec
  else if embedDim < queryVec.length then Except.ok (queryVec.take embedDim)
  else Except.error "Query embedding dim does not match expected"

/-- main() from the dimension check onward: adjust the query vector, filter
the dataset, print the empty-results payload (still carrying the detection
metadata) when the filtered dataset is empty, otherwise run the two-stage
search. -/
def retrieverMain (coarse rerank : List ℚ → DbEmbedding → ℚ) (queryVec : List ℚ)
    (embedDim : Nat) (dataset : List DbEmbedding) (animalCode gender : String)
    (lostDate : Option Nat) (det : Detection) (topk coarsePool : Nat) :
    Except String Payload :=
  match adjustQuery queryVec embedDim with
  | Except.error e => Except.error e
  | Except.ok qv =>
    let ds := applyFilters animalCode gender lostDate dataset
    if ds.isEmpty then Except.ok { query_bbox := det, results := [] }
    else Except.ok (searchStage (coarse qv) (rerank qv) coarsePool ds det topk)

theorem insertDesc_perm {α : Type} (key : α → ℚ) (x : α) (l : List α) :
    (insertDesc key x l).Perm (x :: l) := by
  induction l with
  | nil => simp [insertDesc]
  | cons y ys ih =>
    simp only [insertDesc]
    by_cases h : key y ≤ key x
    · rw [if_pos h]
    · rw [if_neg h]
      exact (ih.cons y).trans (List.Perm.swap x y ys)

theorem sortDesc_perm {α : Type} (key : α → ℚ) (l : List α) :
    (sortDesc key l).Perm l := by
  induction l with
  | nil => simp [sortDesc]
  | cons x xs ih =>
    have hstep : sortDesc key (x :: xs) = insertDesc key x (sortDesc key xs) := rfl
    rw [hstep]
    exact (insertDesc_perm key x _).trans (ih.cons x)

/-- C3: on a nonempty filtered dataset the shortlist handed from the coarse
stage to the rerank stage has exactly min(datasetSize, max(K, coarsePool))
entries, and the coarse pool size defaults to 500. -/
theorem C3_coarse_coverage (score : DbEmbedding → ℚ) (coarsePool topk : Nat)
    (dataset : List DbEmbedding) (_hne : dataset ≠ []) :
    (coarseShortlist score coarsePool dataset topk).length
        = min dataset.length (max topk coarsePool)
      ∧ COARSE_TOPK = 500 := by
  refine ⟨?_, rfl⟩
  rw [coarseShortlist, List.length_take, (sortDesc_perm score dataset).length_eq]
  exact min_eq_left (min_le_left _ _)

/-- Concrete stored row used to instantiate the retriever theorems. -/
def embA : DbEmbedding := ⟨"d1", "popfile1", [1, 0], "417000", "M", some 10⟩

/-- Witness for C3 on a one-row dataset with K = 3. -/
theorem C3_coarse_coverage_witness :
    ([embA] ≠ [])
      ∧ ((coarseShortlist (fun _ => 0) 500 [embA] 3).length
            = min [embA].length (max 3 500)
          ∧ COARSE_TOPK = 500) :=
  ⟨List.cons_ne_nil _ _,
   C3_coarse_coverage (fun _ => 0) 500 3 [embA] (List.cons_ne_nil _ _)⟩

theorem map_congr_mem {α β : Type} (l : List α) (f g : α → β)
    (h : ∀ a ∈ l, f a = g a) : l.map f = l.map g := by
  induction l with
  | nil => rfl
  | cons x xs ih =>
    simp only [List.map_cons]
    rw [h x (List.mem_cons_self x xs), ih fun a ha => h a (List.mem_cons_of_mem x ha)]

theorem updateBest_keys (acc : List (String × ℚ × DbEmbedding)) (sv : ℚ × DbEmbedding) :
    (updateBest acc sv).map Prod.fst
      = if sv.2.desertion_no ∈ acc.map Prod.fst then acc.map Prod.fst
        else acc.map Prod.fst ++ [sv.2.desertion_no] := by
  induction acc with
  | nil => simp [updateBest]
  | cons q rest ih =>
    obtain ⟨k, cur⟩ := q
    simp only [updateBest]
    by_cases hk : k = sv.2.desertion_no
    · rw [if_pos hk]
      subst hk
      by_cases hlt : cur.1 < sv.1
      · rw [if_pos hlt]; simp
      · rw [if_neg hlt]; simp
    · rw [if_neg hk]
      by_cases hmem : sv.2.desertion_no ∈ rest.map Prod.fst
      · simp [ih, hmem, Ne.symm hk]
      · simp [ih, hmem, Ne.symm hk]

theorem updateBest_nodup (acc : List (String × ℚ × DbEmbedding)) (sv : ℚ × DbEmbedding)
    (h : (acc.map Prod.fst).Nodup) : ((updateBest acc sv).map Prod.fst).Nodup := by
  rw [updateBest_keys]
  by_cases hmem : sv.2.desertion_no ∈ acc.map Prod.fst
  · rw [if_pos hmem]; exact h
  · rw [if_neg hmem]
    rw [List.nodup_append]
    refine ⟨h, List.nodup_singleton _, ?_⟩
    intro a ha hb
    simp only [List.mem_singleton] at hb
    subst hb
    exact hmem ha

theorem updateBest_mem (acc : List (String × ℚ × DbEmbedding)) (sv : ℚ × DbEmbedding) :
    ∀ p ∈ updateBest acc sv, p ∈ acc ∨ p = (sv.2.desertion_no, sv) := by
  induction acc with
  | nil =>
    intro p hp
    simp [updateBest] at hp
    right
    exact hp
  | cons q rest ih =>
    obtain ⟨k, cur⟩ := q
    intro p hp
    simp only [updateBest] at hp
    by_cases hk : k = sv.2.desertion_no
    · rw [if_pos hk] at hp
      by_cases hlt : cur.1 < sv.1
      · rw [if_pos hlt] at hp
        rcases List.mem_cons.mp hp with h1 | h2
        · right; rw [h1, hk]
        · left; exact List.mem_cons_of_mem _ h2
      · rw [if_neg hlt] at hp
        rcases List.mem_cons.mp hp with h1 | h2
        · left; rw [h1]; exact List.mem_cons_self _ _
        · left; exact List.mem_cons_of_mem _ h2
    · rw [if_neg hk] at hp
      rcases List.mem_cons.mp hp with h1 | h2
      · left; rw [h1]; exact List.mem_cons_self _ _
      · rcases ih p h2 with ha | hb
        · left; exact List.mem_cons_of_mem _ ha
        · right; exact hb

theorem updateBest_coherent (acc : List (String × ℚ × DbEmbedding)) (sv : ℚ × DbEmbedding)
    (h : ∀ p ∈ acc, (p.2).2.desertion_no = p.1) :
    ∀ p ∈ updateBest acc sv, (p.2).2.desertion_no = p.1 := by
  intro p hp
  rcases updateBest_mem acc sv p hp with h1 | h2
  · exact h p h1
  · rw [h2]

theorem updateBest_key_ge (acc : List (String × ℚ × DbEmbedding)) (sv : ℚ × DbEmbedding) :
    (acc.map Prod.fst).Nodup →
    ∀ p ∈ updateBest acc sv, p.1 = sv.2.desertion_no → sv.1 ≤ (p.2).1 := by
  induction acc with
  | nil =>
    intro _ p hp hpk
    simp [updateBest] at hp
    rw [hp]
  | cons q rest ih =>
    obtain ⟨k, cur⟩ := q
    intro hnd p hp hpk
    simp only [List.map_cons, List.nodup_cons] at hnd
    simp only [updateBest] at hp
    by_cases hk : k = sv.2.desertion_no
    · rw [if_pos hk] at hp
      have hrestkey : ∀ r ∈ rest, r.1 ≠ sv.2.desertion_no := by
        intro r hr hcontra
        apply hnd.1
        have : r.1 ∈ rest.map Prod.fst := List.mem_map_of_mem Prod.fst hr
        rw [hcontra, ← hk] at this
        exact this
      by_cases hlt : cur.1 < sv.1
      · rw [if_pos hlt] at hp
        rcases List.mem_cons.mp hp with h1 | h2
        · rw [h1]
        · exact absurd hpk (hrestkey p h2)
      · rw [if_neg hlt] at hp
        rcases List.mem_cons.mp hp with h1 | h2
        · rw [h1]; exact le_of_not_lt hlt
        · exact absurd hpk (hrestkey p h2)
    · rw [if_neg hk] at hp
      rcases List.mem_cons.mp hp with h1 | h2
      · rw [h1] at hpk
        exact absurd hpk hk
      · exact ih hnd.2 p h2 hpk

theorem updateBest_improves (acc : List (String × ℚ × DbEmbedding)) (sv : ℚ × DbEmbedding) :
    ∀ p ∈ acc, ∃ q ∈ updateBest acc sv, q.1 = p.1 ∧ (p.2).1 ≤ (q.2).1 := by
  induction acc with
  | nil => intro p hp; simp at hp
  | cons a rest ih =>
    obtain ⟨k, cur⟩ := a
    intro p hp
    simp only [updateBest]
    by_cases hk : k = sv.2.desertion_no
    · rw [if_pos hk]
      by_cases hlt : cur.1 < sv.1
      · rw [if_pos hlt]
        rcases List.mem_cons.mp hp with h1 | h2
        · exact ⟨(k, sv), List.mem_cons_self _ _, by rw [h1], by rw [h1]; exact le_of_lt hlt⟩
        · exact ⟨p, List.mem_cons_of_mem _ h2, rfl, le_refl _⟩
      · rw [if_neg hlt]
        rcases List.mem_cons.mp hp with h1 | h2
        · exact ⟨(k, cur), List.mem_cons_self _ _, by rw [h1], by rw [h1]⟩
        · exact ⟨p, List.mem_cons_of_mem _ h2, rfl, le_refl _⟩
    · rw [if_neg hk]
      rcases List.mem_cons.mp hp with h1 | h2
      · exact ⟨(k, cur), List.mem_cons_self _ _, by rw [h1], by rw [h1]⟩
      · obtain ⟨q, hq, hqk, hqle⟩ := ih p h2
        exact ⟨q, List.mem_cons_of_mem _ hq, hqk, hqle⟩

theorem bestPerId_foldl_inv (scores : List (ℚ × DbEmbedding)) :
    ∀ (acc : List (String × ℚ × DbEmbedding)) (processed : List (ℚ × DbEmbedding)),
      (acc.map Prod.fst).Nodup →
      (∀ p ∈ acc, (p.2).2.desertion_no = p.1) →
      (∀ p ∈ acc, p.2 ∈ processed) →
      (∀ sv ∈ processed, ∃ q ∈ acc, q.1 = sv.2.desertion_no ∧ sv.1 ≤ (q.2).1) →
      ((scores.foldl updateBest acc).map Prod.fst).Nodup
        ∧ (∀ p ∈ scores.foldl updateBest acc, (p.2).2.desertion_no = p.1)
        ∧ (∀ p ∈ scores.foldl updateBest acc, p.2 ∈ processed ++ scores)
        ∧ (∀ sv ∈ processed ++ scores,
            ∃ q ∈ scores.foldl updateBest acc, q.1 = sv.2.desertion_no ∧ sv.1 ≤ (q.2).1) := by
  induction scores with
  | nil =>
    intro acc processed h1 h2 h3 h4
    simp only [List.foldl_nil, List.append_nil]
    exact ⟨h1, h2, h3, h4⟩
  | cons sv svs ih =>
    intro acc processed h1 h2 h3 h4
    simp only [List.foldl_cons]
    have h1' := updateBest_nodup acc sv h1
    have h2' := updateBest_coherent acc sv h2
    have h3' : ∀ p ∈ updateBest acc sv, p.2 ∈ processed ++ [sv] := by
      intro p hp
      rcases updateBest_mem acc sv p hp with ha | hb
      · exact List.mem_append_left _ (h3 p ha)
      · rw [hb]
        exact List.mem_append_right _ (by simp)
    have h4' : ∀ sv2 ∈ processed ++ [sv],
        ∃ q ∈ updateBest acc sv, q.1 = sv2.2.desertion_no ∧ sv2.1 ≤ (q.2).1 := by
      intro sv2 hsv2
      rcases List.mem_append.mp hsv2 with hpre | hnew
      · obtain ⟨q, hq, hqk, hqle⟩ := h4 sv2 hpre
        obtain ⟨q2, hq2, hq2k, hq2le⟩ := updateBest_improves acc sv q hq
        exact ⟨q2, hq2, by rw [hq2k, hqk], le_trans hqle hq2le⟩
      · have hsveq : sv2 = sv := by simpa using hnew
        subst hsveq
        have hmemkey : sv2.2.desertion_no ∈ (updateBest acc sv2).map Prod.fst := by
          rw [updateBest_keys]
          by_cases hmem : sv2.2.desertion_no ∈ acc.map Prod.fst
          · rw [if_pos hmem]; exact hmem
          · rw [if_neg hmem]
            exact List.mem_append_right _ (by simp)
        obtain ⟨q, hq, hqk⟩ := List.mem_map.mp hmemkey
        exact ⟨q, hq, hqk, updateBest_key_ge acc sv2 h1 q hq hqk⟩
    have hres := ih (updateBest acc sv) (processed ++ [sv]) h1' h2' h3' h4'
    rwa [List.append_assoc, List.singleton_append] at hres

theorem bestPerId_spec (scores : List (ℚ × DbEmbedding)) :
    ((bestPerId scores).map Prod.fst).Nodup
      ∧ (∀ p ∈ bestPerId scores, (p.2).2.desertion_no = p.1)
      ∧ (∀ p ∈ bestPerId scores, p.2 ∈ scores)
      ∧ (∀ sv ∈ scores,
          ∃ q ∈ bestPerId scores, q.1 = sv.2.desertion_no ∧ sv.1 ≤ (q.2).1) := by
  have h := bestPerId_foldl_inv scores [] []
    (by simp) (by intro p hp; simp at hp) (by intro p hp; simp at hp)
    (by intro sv hsv; simp at hsv)
  simpa [bestPerId] using h

theorem eq_of_mem_keys_nodup {β : Type} (l : List (String × β)) :
    (l.map Prod.fst).Nodup → ∀ p ∈ l, ∀ q ∈ l, p.1 = q.1 → p = q := by
  induction l with
  | nil => intro _ p hp; simp at hp
  | cons a rest ih =>
    intro hnd p hp q hq hk
    simp only [List.map_cons, List.nodup_cons] at hnd
    rcases List.mem_cons.mp hp with hp1 | hp2
    · rcases List.mem_cons.mp hq with hq1 | hq2
      · rw [hp1, hq1]
      · exfalso
        apply hnd.1
        have hqm : q.1 ∈ rest.map Prod.fst := List.mem_map_of_mem Prod.fst hq2
        rw [← hk, hp1] at hqm
        exact hqm
    · rcases List.mem_cons.mp hq with hq1 | hq2
      · exfalso
        apply hnd.1
        have hpm : p.1 ∈ rest.map Prod.fst := List.mem_map_of_mem Prod.fst hp2
        rw [hk, hq1] at hpm
        exact hpm
      · exact ih hnd.2 p hp2 q hq2 hk

theorem searchStage_dedup (coarse rerank : DbEmbedding → ℚ) (coarsePool : Nat)
    (dataset : List DbEmbedding) (det : Detection) (topk : Nat) :
    (((searchStage coarse rerank coarsePool dataset det topk).results.map
        fun sv => sv.2.desertion_no).Nodup)
      ∧ ∀ sv ∈ (searchStage coarse rerank coarsePool dataset det topk).results,
          sv ∈ stageScores coarse rerank coarsePool dataset topk
            ∧ ∀ sv2 ∈ stageScores coarse rerank coarsePool dataset topk,
                sv2.2.desertion_no = sv.2.desertion_no → sv2.1 ≤ sv.1 := by
  obtain ⟨hnd, hcoh, hmem, hmax⟩ :=
    bestPerId_spec (stageScores coarse rerank coarsePool dataset topk)
  have hres : (searchStage coarse rerank coarsePool dataset det topk).results
      = (sortDesc (fun sv => sv.1)
          ((bestPerId (stageScores coarse rerank coarsePool dataset topk)).map Prod.snd)).take
            topk := rfl
  have hidmap : ((bestPerId (stageScores coarse rerank coarsePool dataset topk)).map
        Prod.snd).map (fun sv => sv.2.desertion_no)
      = (bestPerId (stageScores coarse rerank coarsePool dataset topk)).map Prod.fst := by
    rw [List.map_map]
    exact map_congr_mem _ _ _ fun p hp => hcoh p hp
  constructor
  · rw [hres]
    have hperm : ((sortDesc (fun sv => sv.1)
          ((bestPerId (stageScores coarse rerank coarsePool dataset topk)).map Prod.snd)).map
            (fun sv => sv.2.desertion_no)).Perm
        (((bestPerId (stageScores coarse rerank coarsePool dataset topk)).map Prod.snd).map
          (fun sv => sv.2.desertion_no)) :=
      (sortDesc_perm _ _).map _
    have hndsorted : ((sortDesc (fun sv => sv.1)
          ((bestPerId (stageScores coarse rerank coarsePool dataset topk)).map Prod.snd)).map
            (fun sv => sv.2.desertion_no)).Nodup := by
      rw [hperm.nodup_iff, hidmap]
      exact hnd
    have hsub : (((sortDesc (fun sv => sv.1)
          ((bestPerId (stageScores coarse rerank coarsePool dataset topk)).map
            Prod.snd)).take topk).map (fun sv => sv.2.desertion_no)).Sublist
        ((sortDesc (fun sv => sv.1)
          ((bestPerId (stageScores coarse rerank coarsePool dataset topk)).map Prod.snd)).map
            (fun sv => sv.2.desertion_no)) :=
      (List.take_sublist _ _).map _
    exact List.Nodup.sublist hsub hndsorted
  · intro sv hsv
    rw [hres] at hsv
    have hsv2 : sv ∈ sortDesc (fun sv => sv.1)
        ((bestPerId (stageScores coarse rerank coarsePool dataset topk)).map Prod.snd) :=
      List.mem_of_mem_take hsv
    have hsv3 : sv ∈ (bestPerId (stageScores coarse rerank coarsePool dataset topk)).map
        Prod.snd := (sortDesc_perm _ _).mem_iff.mp hsv2
    obtain ⟨p, hp, hpsnd⟩ := List.mem_map.mp hsv3
    constructor
    · rw [← hpsnd]
      exact hmem p hp
    · intro sv2 hsv2m hkeq
      obtain ⟨q, hq, hqk, hqle⟩ := hmax sv2 hsv2m
      have hqp : q = p := by
        apply eq_of_mem_keys_nodup _ hnd q hq p hp
        rw [hqk, hkeq, ← hpsnd]
        exact hcoh p hp
      rw [hqp] at hqle
      calc sv2.1 ≤ (p.2).1 := hqle
        _ = sv.1 := by rw [hpsnd]

/-- C4: in every result list the retriever produces, no desertion_no
appears twice, and the entry kept for each id is one of the entries of that id
in the reranked score list (its scored sides) and carries the maximum
similarity among them. -/
theorem C4_dedup_invariant (coarse rerank : List ℚ → DbEmbedding → ℚ) (queryVec : List ℚ)
    (embedDim : Nat) (dataset : List DbEmbedding) (animalCode gender : String)
    (lostDate : Option Nat) (det : Detection) (topk coarsePool : Nat) (p : Payload)
    (h : retrieverMain coarse rerank queryVec embedDim dataset animalCode gender lostDate det
        topk coarsePool = Except.ok p) :
    ((p.results.map fun sv => sv.2.desertion_no).Nodup)
      ∧ ∃ qv, adjustQuery queryVec embedDim = Except.ok qv
          ∧ ∀ sv ∈ p.results,
              sv ∈ stageScores (coarse qv) (rerank qv) coarsePool
                  (applyFilters animalCode gender lostDate dataset) topk
                ∧ ∀ sv2 ∈ stageScores (coarse qv) (rerank qv) coarsePool
                      (applyFilters animalCode gender lostDate dataset) topk,
                    sv2.2.desertion_no = sv.2.desertion_no → sv2.1 ≤ sv.1 := by
  cases hadj : adjustQuery queryVec embedDim with
  | error e =>
    rw [retrieverMain, hadj] at h
    simp at h
  | ok qv =>
    rw [retrieverMain, hadj] at h
    simp only [] at h
    by_cases hemp : (applyFilters animalCode gender lostDate dataset).isEmpty
    · rw [if_pos hemp] at h
      have hp : p = { query_bbox := det, results := [] } := (Except.ok.inj h).symm
      subst hp
      refine ⟨by simp, qv, rfl, ?_⟩
      intro sv hsv
      simp at hsv
    · rw [if_neg hemp] at h
      have hp : p = searchStage (coarse qv) (rerank qv) coarsePool
          (applyFilters animalCode gender lostDate dataset) det topk := (Except.ok.inj h).symm
      subst hp
      obtain ⟨h1, h2⟩ := searchStage_dedup (coarse qv) (rerank qv) coarsePool
        (applyFilters animalCode gender lostDate dataset) det topk
      exact ⟨h1, qv, rfl, h2⟩

/-- The query bbox used to instantiate the retriever theorems. -/
def det0 : Detection := ⟨1, 2, 3, 4, 9 / 10⟩

/-- Witness for C4 on a one-row unfiltered dataset. -/
theorem C4_dedup_invariant_witness :
    retrieverMain (fun _ _ => 0) (fun _ _ => 0) [1, 0] 2 [embA] "" "" none det0 1 500
        = Except.ok { query_bbox := det0, results := [(0, embA)] }
      ∧ ((({ query_bbox := det0, results := [(0, embA)] } : Payload).results.map
            fun sv => sv.2.desertion_no).Nodup
          ∧ ∃ qv, adjustQuery [1, 0] 2 = Except.ok qv
              ∧ ∀ sv ∈ ({ query_bbox := det0, results := [(0, embA)] } : Payload).results,
                  sv ∈ stageScores ((fun (_ : List ℚ) (_ : DbEmbedding) => (0 : ℚ)) qv)
                      ((fun (_ : List ℚ) (_ : DbEmbedding) => (0 : ℚ)) qv) 500
                      (applyFilters "" "" none [embA]) 1
                    ∧ ∀ sv2 ∈ stageScores ((fun (_ : List ℚ) (_ : DbEmbedding) => (0 : ℚ)) qv)
                        ((fun (_ : List ℚ) (_ : DbEmbedding) => (0 : ℚ)) qv) 500
                        (applyFilters "" "" none [embA]) 1,
                        sv2.2.desertion_no = sv.2.desertion_no → sv2.1 ≤ sv.1) :=
  ⟨rfl,
   C4_dedup_invariant (fun _ _ => 0) (fun _ _ => 0) [1, 0] 2 [embA] "" "" none det0 1 500
     { query_bbox := det0, results := [(0, embA)] } rfl⟩

/-- C6: a query vector longer than the configured dimension is truncated to
that dimension and the search proceeds (the run equals the run on the
truncated vector and returns a payload, with no padding and no retry); a
query vector strictly shorter than the configured dimension makes the
retriever raise the fatal dimension-mismatch error. -/
theorem C6_query_dimension (coarse rerank : List ℚ → DbEmbedding → ℚ) (queryVec : List ℚ)
    (embedDim : Nat) (dataset : List DbEmbedding) (animalCode gender : String)
    (lostDate : Option Nat) (det : Detection) (topk coarsePool : Nat) :
    (embedDim < queryVec.length →
        adjustQuery queryVec embedDim = Except.ok (queryVec.take embedDim)
          ∧ (queryVec.take embedDim).length = embedDim
          ∧ retrieverMain coarse rerank queryVec embedDim dataset animalCode gender lostDate
              det topk coarsePool
            = retrieverMain coarse rerank (queryVec.take embedDim) embedDim dataset animalCode
                gender lostDate det topk coarsePool
          ∧ ∃ pay, retrieverMain coarse rerank queryVec embedDim dataset animalCode gender
              lostDate det topk coarsePool = Except.ok pay)
      ∧ (queryVec.length < embedDim →
          ∃ msg, retrieverMain coarse rerank queryVec embedDim dataset animalCode gender
              lostDate det topk coarsePool = Except.error msg) := by
  constructor
  · intro hlong
    have hne : queryVec.length ≠ embedDim := by omega
    have hadj : adjustQuery queryVec embedDim = Except.ok (queryVec.take embedDim) := by
      rw [adjustQuery, if_neg hne, if_pos hlong]
    have htake : (queryVec.take embedDim).length = embedDim := by
      rw [List.length_take]
      omega
    have hadj2 : adjustQuery (queryVec.take embedDim) embedDim
        = Except.ok (queryVec.take embedDim) := by
      rw [adjustQuery, if_pos htake]
    refine ⟨hadj, htake, ?_, ?_⟩
    · rw [retrieverMain, retrieverMain, hadj, hadj2]
    · rw [retrieverMain, hadj]
      simp only []
      by_cases hemp : (applyFilters animalCode gender lostDate dataset).isEmpty
      · rw [if_pos hemp]
        exact ⟨_, rfl⟩
      · rw [if_neg hemp]
        exact ⟨_, rfl⟩
  · intro hshort
    have hne : queryVec.length ≠ embedDim := by omega
    have hnlt : ¬ embedDim < queryVec.length := by omega
    refine ⟨"Query embedding dim does not match expected", ?_⟩
    rw [retrieverMain, adjustQuery, if_neg hne, if_neg hnlt]

/-- Witness for C6 with a length-3 query against dimension 2 (instantiation;
the two branch hypotheses are inside the conclusion). -/
theorem C6_query_dimension_witness :
    (2 < ([1, 2, 3] : List ℚ).length →
        adjustQuery [1, 2, 3] 2 = Except.ok (([1, 2, 3] : List ℚ).take 2)
          ∧ (([1, 2, 3] : List ℚ).take 2).length = 2
          ∧ retrieverMain (fun _ _ => 0) (fun _ _ => 0) [1, 2, 3] 2 [embA] "" "" none det0 1 500
            = retrieverMain (fun _ _ => 0) (fun _ _ => 0) (([1, 2, 3] : List ℚ).take 2) 2 [embA]
                "" "" none det0 1 500
          ∧ ∃ pay, retrieverMain (fun _ _ => 0) (fun _ _ => 0) [1, 2, 3] 2 [embA] "" "" none
              det0 1 500 = Except.ok pay)
      ∧ (([1, 2, 3] : List ℚ).length < 2 →
          ∃ msg, retrieverMain (fun _ _ => 0) (fun _ _ => 0) [1, 2, 3] 2 [embA] "" "" none det0
              1 500 = Except.error msg) :=
  C6_query_dimension (fun _ _ => 0) (fun _ _ => 0) [1, 2, 3] 2 [embA] "" "" none det0 1 500

/-- C7: an empty dataset after filtering is not fatal: the retriever
returns the payload whose results list is empty while the query_bbox still
carries the detection metadata (x1, y1, x2, y2, conf), raising no error. -/
theorem C7_empty_after_filter (coarse rerank : List ℚ → DbEmbedding → ℚ) (queryVec : List ℚ)
    (embedDim : Nat) (dataset : List DbEmbedding) (animalCode gender : String)
    (lostDate : Option Nat) (det : Detection) (topk coarsePool : Nat)
    (hdim : embedDim ≤ queryVec.length)
    (hempty : applyFilters animalCode gender lostDate dataset = []) :
    retrieverMain coarse rerank queryVec embedDim dataset animalCode gender lostDate det topk
        coarsePool
      = Except.ok { query_bbox := det, results := [] } := by
  have hadj : ∃ qv, adjustQuery queryVec embedDim = Except.ok qv := by
    rw [adjustQuery]
    by_cases heq : queryVec.length = embedDim
    · rw [if_pos heq]; exact ⟨_, rfl⟩
    · rw [if_neg heq, if_pos (by omega)]; exact ⟨_, rfl⟩
  obtain ⟨qv, hqv⟩ := hadj
  rw [retrieverMain, hqv]
  simp only []
  rw [if_pos (by rw [hempty]; rfl)]

/-- Row removed by the dog filter, used to instantiate C7. -/
def embB : DbEmbedding := ⟨"d2", "popfile2", [0, 1], "422400", "F", none⟩

/-- Witness for C7: a cat row filtered out by the dog animal-type filter. -/
theorem C7_empty_after_filter_witness :
    2 ≤ ([1, 0] : List ℚ).length
      ∧ applyFilters "417000" "" none [embB] = []
      ∧ retrieverMain (fun _ _ => 0) (fun _ _ => 0) [1, 0] 2 [embB] "417000" "" none det0 5 500
          = Except.ok { query_bbox := det0, results := [] } :=
  ⟨by decide, by rfl,
   C7_empty_after_filter (fun _ _ => 0) (fun _ _ => 0) [1, 0] 2 [embB] "417000" "" none det0 5
     500 (by decide) (by rfl)⟩

end CoG
